import Mathlib

/-!
Verification of the ui-elf component-extraction core: a shallow embedding of
the Go sources (internal/registry, the Vue and React format parsers, and the
concurrent ComponentScanner) together with theorems settling the spec claims.

Modelling conventions:
* Go strings are modelled as `List Char` (`Str`).  The element names, paths and
  type names handled by the program are ASCII, and on ASCII the Lean `Char.toLower`
  agrees with Go's `strings.ToLower` / the folding used by `strings.EqualFold`.
* The three Go regular expressions are RE2 patterns used in leftmost-first mode;
  each is embedded as a dedicated scanner whose behaviour coincides with the
  regexp on the pattern's language (see the comments at each definition).
* The concurrent fan-out of `ComponentScanner.Scan` is modelled by a sequential
  fold in input order, one admissible delivery order of the per-file goroutine
  results; wall-clock time is passed in as a parameter.  The file system is an
  explicit map from paths to optional contents (`none` models a read failure).
-/

namespace UiElf

/-- Go strings, modelled as lists of characters. -/
abbrev Str := List Char

/-- Coerce a Lean string literal to the `Str` model. -/
def str (s : String) : Str := s.data

/-- Model of Go `strings.ToLower` (ASCII range, which covers all program data). -/
def lowerStr (s : Str) : Str := s.map Char.toLower

/-- Model of Go `strings.EqualFold` (ASCII simple folding). -/
def eqFold (a b : Str) : Bool := lowerStr a == lowerStr b

/-! ## internal/types: the data model -/

/-- `types.ComponentMatch`: one occurrence of an element usage. -/
structure ComponentMatch where
  FilePath : Str
  Line : Nat
  ComponentName : Str
  ComponentType : Str
deriving DecidableEq

/-- `types.ScanResult`: aggregate of one scan run. -/
structure ScanResult where
  Matches : List ComponentMatch
  TotalCount : Nat
  ScanTimeMs : Nat
  ComponentType : Str
  ScannedFiles : Nat
deriving DecidableEq

/-! ## internal/registry: the type registry -/

/-- `registry.ComponentMapping`: library name to component names (the Go map is
modelled as an association list; `MatchesComponentType` only quantifies over its
entries, so iteration order is irrelevant). -/
structure ComponentMapping where
  type : Str
  patterns : List (Str × List Str)
deriving DecidableEq

/-- The hardcoded mappings installed by `registry.NewComponentMappingRegistry`. -/
def registryMappings : List (Str × ComponentMapping) :=
  [ (str "form",
     { type := str "form"
       patterns :=
        [ (str "native", [str "form"]),
          (str "quasar", [str "q-form", str "QForm"]),
          (str "material", [str "v-form", str "VForm", str "Form", str "MuiForm"]) ] }),
    (str "button",
     { type := str "button"
       patterns :=
        [ (str "native", [str "button"]),
          (str "quasar", [str "q-btn", str "QBtn"]),
          (str "material", [str "v-btn", str "VBtn", str "Button", str "MuiButton"]) ] }),
    (str "dialog",
     { type := str "dialog"
       patterns :=
        [ (str "native", [str "dialog"]),
          (str "quasar", [str "q-dialog", str "QDialog"]),
          (str "material", [str "v-dialog", str "VDialog", str "Dialog", str "MuiDialog"]) ] }) ]

/-- `ComponentMappingRegistry.GetMapping`: look the lowercased type up in the table. -/
def GetMapping (componentType : Str) : Option ComponentMapping :=
  registryMappings.lookup (lowerStr componentType)

/-- `ComponentMappingRegistry.MatchesComponentType`: classify an element name
against a requested component type. -/
def MatchesComponentType (componentName componentType : Str) : Bool :=
  match GetMapping componentType with
  | none => eqFold componentName componentType
  | some mapping =>
      mapping.patterns.any fun libPatterns =>
        libPatterns.2.any fun pat => eqFold componentName pat

/-! ## Character classes of the Go regular expressions

The parsers use the RE2 patterns over single lines (no multi-line flag)
  tag:  the open angle bracket, then a group of [A-Za-z][A-Za-z0-9-]*,
        then one of [\s>/] or end of text
  jsx:  the open angle bracket, then a group of [A-Z][A-Za-z0-9]*,
        then one of [\s>/] or end of text
where the Go \s class is exactly the characters tab, newline, form feed,
carriage return, and space. -/

/-- The class [A-Z]. -/
def isReUpper (c : Char) : Bool := 65 ≤ c.toNat && c.toNat ≤ 90

/-- The class [a-z]. -/
def isReLower (c : Char) : Bool := 97 ≤ c.toNat && c.toNat ≤ 122

/-- The class [A-Za-z]. -/
def isReLetter (c : Char) : Bool := isReUpper c || isReLower c

/-- The class [0-9]. -/
def isReDigit (c : Char) : Bool := 48 ≤ c.toNat && c.toNat ≤ 57

/-- The class [A-Za-z0-9-] (the continuation chars of a template tag name). -/
def isTagNameChar (c : Char) : Bool := isReLetter c || isReDigit c || c == '-'

/-- The class [A-Za-z0-9] (the continuation chars of a JSX component name). -/
def isJsxNameChar (c : Char) : Bool := isReLetter c || isReDigit c

/-- The Go regexp class \s, namely [\t\n\f\r ]. -/
def isReSpace (c : Char) : Bool :=
  c == '\t' || c == '\n' || c == '\x0c' || c == '\r' || c == ' '

/-- The class [\s>/] that must follow a captured tag name (unless at end of line). -/
def isBoundaryChar (c : Char) : Bool := isReSpace c || c == '>' || c == '/'

/-! ## The tag scanner

`findTags firstOk nameOk line` returns, in order, the capture groups of all
leftmost-first, non-overlapping matches of the pattern
  open-bracket (firstOk (nameOk)*) ([\s>/] | end)
on one line, exactly as Go's `FindAllStringSubmatch(line, -1)` computes them.
The embedding tests the pattern at every position and always advances one
character; this coincides with the engine's non-overlapping resume because a
match span (the bracket, the name run, and the optional boundary character)
never contains another open bracket, so skipping the remainder of a consumed
span skips no candidate start. -/

/-- Attempt the pattern at one position: it succeeds iff the position holds `<`,
then a character accepted by firstOk, and the maximal nameOk-run after it is
followed by a boundary character or the end of the line.  (The greedy star of
the Go pattern cannot stop earlier: shortening the run leaves a name character
next, which is never in [\s>/].) -/
def matchTagAt (firstOk nameOk : Char → Bool) : Str → Option Str
  | c0 :: c :: cs =>
    if c0 = '<' then
      if firstOk c then
        match cs.dropWhile nameOk with
        | [] => some (c :: cs.takeWhile nameOk)
        | b :: _ =>
          if isBoundaryChar b then some (c :: cs.takeWhile nameOk) else none
      else none
    else none
  | [] => none
  | [_] => none

def findTags (firstOk nameOk : Char → Bool) : Str → List Str
  | [] => []
  | c0 :: rest =>
    match matchTagAt firstOk nameOk (c0 :: rest) with
    | some name => name :: findTags firstOk nameOk rest
    | none => findTags firstOk nameOk rest

/-- Go `strings.Split(s, "\n")`, accumulator form. -/
def splitLinesAux : Str → Str → List Str
  | [], acc => [acc.reverse]
  | c :: rest, acc =>
    if c = '\n' then acc.reverse :: splitLinesAux rest []
    else splitLinesAux rest (c :: acc)

/-- Go `strings.Split(s, "\n")`. -/
def splitLines (s : Str) : List Str := splitLinesAux s []

/-! ## internal/scanner: the parser passes -/

/-- The fixed denylist of standard HTML element names from `isHTMLTag`. -/
def htmlTags : List Str :=
  [ str "div", str "span", str "p", str "a", str "img",
    str "ul", str "ol", str "li", str "table", str "tr",
    str "td", str "th", str "thead", str "tbody", str "tfoot",
    str "h1", str "h2", str "h3", str "h4", str "h5", str "h6",
    str "header", str "footer", str "nav", str "section", str "article",
    str "aside", str "main", str "input", str "textarea", str "select",
    str "option", str "label", str "fieldset", str "legend",
    str "strong", str "em", str "b", str "i", str "u",
    str "br", str "hr", str "pre", str "code", str "blockquote",
    str "iframe", str "video", str "audio", str "canvas", str "svg",
    str "path", str "circle", str "rect", str "line", str "polygon",
    str "template", str "slot", str "script", str "style", str "link",
    str "meta", str "title", str "head", str "body", str "html",
    str "button", str "form", str "dialog" ]

/-- `isHTMLTag`: true iff the name is all-lowercase and in the denylist. -/
def isHTMLTag (tagName : Str) : Bool :=
  let lowerTag := lowerStr tagName
  lowerTag == tagName && htmlTags.contains lowerTag

/-- One line of a parsing pass: walk the candidate names found on the line in
order, skipping denylisted names (template pass only) and names already seen on
this line, emitting a `ComponentMatch` at `base + lineIdx` for the rest.  The
`seen` set models the Go nested map `seenComponents[name][lineIdx]`. -/
def passLine (filterHtml : Bool) (filePath : Str) (base lineIdx : Nat) :
    List Str → List (Str × Nat) → List ComponentMatch × List (Str × Nat)
  | [], seen => ([], seen)
  | name :: rest, seen =>
    if filterHtml && isHTMLTag name then
      passLine filterHtml filePath base lineIdx rest seen
    else if (name, lineIdx) ∈ seen then
      passLine filterHtml filePath base lineIdx rest seen
    else
      let res := passLine filterHtml filePath base lineIdx rest ((name, lineIdx) :: seen)
      (⟨filePath, base + lineIdx, name, []⟩ :: res.1, res.2)

/-- All lines of a parsing pass, threading the line index and the seen set. -/
def passLines (filterHtml : Bool) (firstOk nameOk : Char → Bool) (filePath : Str)
    (base : Nat) : List Str → Nat → List (Str × Nat) → List ComponentMatch
  | [], _, _ => []
  | line :: rest, lineIdx, seen =>
    let res := passLine filterHtml filePath base lineIdx (findTags firstOk nameOk line) seen
    res.1 ++ passLines filterHtml firstOk nameOk filePath base rest (lineIdx + 1) res.2

/-- `parseTemplateComponents`: the template pass (tag pattern, HTML denylist). -/
def parseTemplateComponents (templateContent filePath : Str) (baseLineNumber : Nat) :
    List ComponentMatch :=
  passLines true isReLetter isTagNameChar filePath baseLineNumber
    (splitLines templateContent) 0 []

/-- `parseJSXComponents`: the Vue script pass (JSX pattern, no denylist). -/
def parseJSXComponents (scriptContent filePath : Str) (baseLineNumber : Nat) :
    List ComponentMatch :=
  passLines false isReUpper isJsxNameChar filePath baseLineNumber
    (splitLines scriptContent) 0 []

/-- `parseReactJSXComponents`: the whole-file React pass (same code as the Vue
script pass in the source). -/
def parseReactJSXComponents (content filePath : Str) (baseLineNumber : Nat) :
    List ComponentMatch :=
  passLines false isReUpper isJsxNameChar filePath baseLineNumber
    (splitLines content) 0 []

/-! ## Region extraction

The Go patterns for region extraction are, with dot-matches-newline,
  open-literal [^>]* `>` (lazy-dot-star) close-literal
for the template and script delimiters.  At a given start the greedy [^>]* must
stop at the first `>` (it cannot cross one), and the lazy group stops at the
first occurrence of the close literal; the overall match is the leftmost start
at which both succeed. -/

/-- First index at which a character satisfying p occurs. -/
def firstIdxOf (p : Char → Bool) : Str → Option Nat
  | [] => none
  | c :: rest => if p c then some 0 else (firstIdxOf p rest).map (· + 1)

/-- First index at which the pattern occurs as a contiguous sublist. -/
def findSubstrIdx (pat : Str) : Str → Option Nat
  | [] => if pat.isPrefixOf [] then some 0 else none
  | s@(_ :: rest) =>
    if pat.isPrefixOf s then some 0
    else (findSubstrIdx pat rest).map (· + 1)

/-- Try the opening delimiter at the head of s: if the open literal is a prefix
and a `>` follows, return the offset just past that first `>`. -/
def matchOpenAt (openLit s : Str) : Option Nat :=
  if openLit.isPrefixOf s then
    match firstIdxOf (fun c => c == '>') (s.drop openLit.length) with
    | some j => some (openLit.length + j + 1)
    | none => none
  else none

/-- Leftmost-first search for `openLit [^>]* > (lazy) closeLit`; returns the
captured region together with its absolute start index. -/
def extractSectionAux (openLit closeLit : Str) : Str → Nat → Option (Str × Nat)
  | [], _ => none
  | s@(_ :: rest), pos =>
    match matchOpenAt openLit s with
    | some off =>
      match findSubstrIdx closeLit (s.drop off) with
      | some k => some ((s.drop off).take k, pos + off)
      | none => extractSectionAux openLit closeLit rest (pos + 1)
    | none => extractSectionAux openLit closeLit rest (pos + 1)

/-- Count of newline characters in a string. -/
def countNl (s : Str) : Nat := s.countP (fun c => c == '\n')

/-- `extractTemplateSection`: region text and 1-based start line, or ("", 0). -/
def extractTemplateSection (content : Str) : Str × Nat :=
  match extractSectionAux (str "<template") (str "</template>") content 0 with
  | none => ([], 0)
  | some (tc, idx) => (tc, countNl (content.take idx) + 1)

/-- `extractScriptSection`: region text and 1-based start line, or ("", 0). -/
def extractScriptSection (content : Str) : Str × Nat :=
  match extractSectionAux (str "<script") (str "</script>") content 0 with
  | none => ([], 0)
  | some (sc, idx) => (sc, countNl (content.take idx) + 1)

/-! ## The two parsers and the scanner -/

/-- `VueParser.SupportsFile`: case-insensitive .vue suffix. -/
def VueParser.SupportsFile (filePath : Str) : Bool :=
  (str ".vue").isSuffixOf (lowerStr filePath)

/-- `VueParser.Parse`: template pass plus script pass; the error is always nil. -/
def VueParser.Parse (fileContent filePath : Str) : List ComponentMatch × Option Str :=
  let t := extractTemplateSection fileContent
  let templateMatches :=
    if t.1 ≠ [] then parseTemplateComponents t.1 filePath t.2 else []
  let s := extractScriptSection fileContent
  let jsxMatches :=
    if s.1 ≠ [] then parseJSXComponents s.1 filePath s.2 else []
  (templateMatches ++ jsxMatches, none)

/-- `ReactParser.SupportsFile`: case-insensitive .jsx or .tsx suffix. -/
def ReactParser.SupportsFile (filePath : Str) : Bool :=
  (str ".jsx").isSuffixOf (lowerStr filePath) ||
  (str ".tsx").isSuffixOf (lowerStr filePath)

/-- `ReactParser.Parse`: one whole-file JSX pass from line 1; error always nil. -/
def ReactParser.Parse (fileContent filePath : Str) : List ComponentMatch × Option Str :=
  (parseReactJSXComponents fileContent filePath 1, none)

/-- The `scanner.ComponentParser` implementations present in the program. -/
inductive ComponentParser where
  | vue
  | react
deriving DecidableEq

/-- Dispatch of `SupportsFile` through the interface. -/
def ComponentParser.SupportsFile : ComponentParser → Str → Bool
  | .vue, p => VueParser.SupportsFile p
  | .react, p => ReactParser.SupportsFile p

/-- Dispatch of `Parse` through the interface. -/
def ComponentParser.ParseFile : ComponentParser → Str → Str → List ComponentMatch × Option Str
  | .vue, c, p => VueParser.Parse c p
  | .react, c, p => ReactParser.Parse c p

/-- The parser list the CLI controller passes to `NewComponentScanner`
(Vue first, then React). -/
def appParsers : List ComponentParser := [.vue, .react]

/-- `ComponentScanner.filterByComponentType`: keep registry-accepted matches and
stamp their component type. -/
def filterByComponentType : List ComponentMatch → Str → List ComponentMatch
  | [], _ => []
  | m :: rest, componentType =>
    if MatchesComponentType m.ComponentName componentType then
      { m with ComponentType := componentType } :: filterByComponentType rest componentType
    else filterByComponentType rest componentType

/-- The per-file unit of work of `ComponentScanner.Scan` (the goroutine body):
first supporting parser, file read, parse, filter; every failure contributes
nothing.  The file system is `fs` (`none` models an unreadable path). -/
def scanFile (fs : Str → Option Str) (parsers : List ComponentParser)
    (componentType path : Str) : List ComponentMatch :=
  match parsers.find? (fun p => p.SupportsFile path) with
  | none => []
  | some parser =>
    match fs path with
    | none => []
    | some content =>
      match parser.ParseFile content path with
      | (_, some _) => []
      | (rawMatches, none) => filterByComponentType rawMatches componentType

/-- `ComponentScanner.Scan`: fan out over the files, aggregate, and build the
result.  The concurrent delivery is modelled by input order (one admissible
interleaving); the elapsed milliseconds are a parameter.  The second component
is the returned Go error, always nil. -/
def Scan (fs : Str → Option Str) (parsers : List ComponentParser) (files : List Str)
    (componentType : Str) (elapsedMs : Nat) : ScanResult × Option Str :=
  let allMatches := (files.map (scanFile fs parsers componentType)).flatten
  ({ Matches := allMatches
     TotalCount := allMatches.length
     ScanTimeMs := elapsedMs
     ComponentType := componentType
     ScannedFiles := files.length }, none)

/-- An example file system for concrete scan scenarios: exactly one readable
Vue file; every other path fails to read. -/
def exampleFs : Str → Option Str := fun p =>
  if p = str "valid.vue" then some (str "<template><q-form></q-form></template>")
  else none

/-! ## Tag scanner lemmas -/

/-- A successful position match captures a name whose head the first-character
class accepts and whose tail the name class accepts. -/
theorem matchTagAt_some {fo no : Char → Bool} {s name : Str}
    (h : matchTagAt fo no s = some name) :
    ∃ c cs, name = c :: cs ∧ fo c = true ∧ ∀ x ∈ cs, no x = true := by
  rw [matchTagAt.eq_def] at h
  split at h
  next c0 c cs =>
    split at h
    · split at h
      · split at h
        · injection h with h2
          subst h2
          exact ⟨c, _, rfl, by assumption, fun x hx => List.mem_takeWhile_imp hx⟩
        · split at h
          · injection h with h2
            subst h2
            exact ⟨c, _, rfl, by assumption, fun x hx => List.mem_takeWhile_imp hx⟩
          · cases h
      · cases h
    · cases h
  next => cases h
  next => cases h

/-- Every name reported by the scanner has an accepted head character and
accepted continuation characters. -/
theorem findTags_mem {fo no : Char → Bool} :
    ∀ {s name : Str}, name ∈ findTags fo no s →
      ∃ c cs, name = c :: cs ∧ fo c = true ∧ ∀ x ∈ cs, no x = true := by
  intro s
  induction s with
  | nil => intro name h; simp [findTags] at h
  | cons c0 rest ih =>
    intro name h
    rw [findTags] at h
    cases hm : matchTagAt fo no (c0 :: rest) with
    | none =>
      rw [hm] at h
      exact ih h
    | some nm =>
      rw [hm] at h
      have h2 : name ∈ nm :: findTags fo no rest := h
      rcases List.mem_cons.mp h2 with h3 | h3
      · subst h3
        exact matchTagAt_some hm
      · exact ih h3

/-! ## Parser pass lemmas -/

/-- Every match emitted for one line carries the file path, line number
base + lineIdx, an empty component type, and a candidate name from the line
that the HTML filter (when active) rejects and whose per-line key is absent
from the incoming seen set. -/
theorem passLine_mem {f : Bool} {fp : Str} {b i : Nat} :
    ∀ {cands : List Str} {seen : List (Str × Nat)} {m : ComponentMatch},
      m ∈ (passLine f fp b i cands seen).1 →
      ∃ name, m = ⟨fp, b + i, name, []⟩ ∧ name ∈ cands ∧
        (f = true → isHTMLTag name = false) ∧ (name, i) ∉ seen := by
  intro cands
  induction cands with
  | nil =>
    intro seen m h
    simp [passLine] at h
  | cons name rest ih =>
    intro seen m h
    rw [passLine] at h
    by_cases h1 : (f && isHTMLTag name) = true
    · rw [if_pos h1] at h
      obtain ⟨n, hm, hn, hh, hs⟩ := ih h
      exact ⟨n, hm, List.mem_cons_of_mem _ hn, hh, hs⟩
    · rw [if_neg h1] at h
      by_cases h2 : (name, i) ∈ seen
      · rw [if_pos h2] at h
        obtain ⟨n, hm, hn, hh, hs⟩ := ih h
        exact ⟨n, hm, List.mem_cons_of_mem _ hn, hh, hs⟩
      · rw [if_neg h2] at h
        have h3 : m = (⟨fp, b + i, name, []⟩ : ComponentMatch) ∨
            m ∈ (passLine f fp b i rest ((name, i) :: seen)).1 := List.mem_cons.mp h
        rcases h3 with h3 | h3
        · refine ⟨name, h3, List.mem_cons_self _ _, ?_, h2⟩
          intro hf
          subst hf
          simpa using h1
        · obtain ⟨n, hm, hn, hh, hs⟩ := ih h3
          exact ⟨n, hm, List.mem_cons_of_mem _ hn, hh,
            fun hc => hs (List.mem_cons_of_mem _ hc)⟩

/-- The key of every name emitted for one line is absent from the incoming
seen set. -/
theorem passLine_mem_name {f : Bool} {fp : Str} {b i : Nat} {cands : List Str}
    {seen : List (Str × Nat)} {n : Str}
    (h : n ∈ (passLine f fp b i cands seen).1.map (fun m => m.ComponentName)) :
    (n, i) ∉ seen := by
  obtain ⟨m, hm, rfl⟩ := List.mem_map.mp h
  obtain ⟨name, hmeq, _, _, hs⟩ := passLine_mem hm
  subst hmeq
  exact hs

/-- Within one line, the emitted component names are pairwise distinct
(the per-line dedup). -/
theorem passLine_names_nodup {f : Bool} {fp : Str} {b i : Nat} :
    ∀ {cands : List Str} {seen : List (Str × Nat)},
      ((passLine f fp b i cands seen).1.map (fun m => m.ComponentName)).Nodup := by
  intro cands
  induction cands with
  | nil => intro seen; simp [passLine]
  | cons name rest ih =>
    intro seen
    rw [passLine]
    by_cases h1 : (f && isHTMLTag name) = true
    · rw [if_pos h1]; exact ih
    · rw [if_neg h1]
      by_cases h2 : (name, i) ∈ seen
      · rw [if_pos h2]; exact ih
      · rw [if_neg h2]
        have hgoal : (((⟨fp, b + i, name, []⟩ : ComponentMatch) ::
            (passLine f fp b i rest ((name, i) :: seen)).1).map
              (fun m => m.ComponentName)).Nodup → _ := id
        apply hgoal
        rw [List.map_cons, List.nodup_cons]
        exact ⟨fun hmem => passLine_mem_name hmem (List.mem_cons_self _ _), ih⟩

/-- Every match of a pass carries the file path, an empty type, a reported
name found by the tag scanner on one of the lines, rejected by the HTML filter
when it is active, and a line number base + j for the zero-based index j of
one of the lines. -/
theorem passLines_mem {f : Bool} {fo no : Char → Bool} {fp : Str} {b : Nat} :
    ∀ {lines : List Str} {i : Nat} {seen : List (Str × Nat)} {m : ComponentMatch},
      m ∈ passLines f fo no fp b lines i seen →
      m.FilePath = fp ∧ m.ComponentType = [] ∧
      (f = true → isHTMLTag m.ComponentName = false) ∧
      (∃ line ∈ lines, m.ComponentName ∈ findTags fo no line) ∧
      ∃ j, i ≤ j ∧ j < i + lines.length ∧ m.Line = b + j := by
  intro lines
  induction lines with
  | nil => intro i seen m h; simp [passLines] at h
  | cons line rest ih =>
    intro i seen m h
    rw [passLines] at h
    rcases List.mem_append.mp h with h | h
    · obtain ⟨name, hmeq, hn, hh, _⟩ := passLine_mem h
      subst hmeq
      exact ⟨rfl, rfl, hh, ⟨line, List.mem_cons_self _ _, hn⟩, i, Nat.le_refl i,
        by simp only [List.length_cons]; omega, rfl⟩
    · obtain ⟨e1, e2, e3, ⟨l2, hl2, hn2⟩, j, hj1, hj2, hj3⟩ := ih h
      exact ⟨e1, e2, e3, ⟨l2, List.mem_cons_of_mem _ hl2, hn2⟩, j, by omega,
        by simp only [List.length_cons]; omega, hj3⟩

/-- Across a whole pass, the (name, line) keys of the emitted matches are
pairwise distinct: names are deduplicated within a line, and different lines
yield different line numbers. -/
theorem passLines_keys_nodup {f : Bool} {fo no : Char → Bool} {fp : Str} {b : Nat} :
    ∀ {lines : List Str} {i : Nat} {seen : List (Str × Nat)},
      ((passLines f fo no fp b lines i seen).map
        (fun m => (m.ComponentName, m.Line))).Nodup := by
  intro lines
  induction lines with
  | nil => intro i seen; simp [passLines]
  | cons line rest ih =>
    intro i seen
    rw [passLines]
    have hgoal :
        ((((passLine f fp b i (findTags fo no line) seen).1 ++
            passLines f fo no fp b rest (i + 1)
              (passLine f fp b i (findTags fo no line) seen).2).map
          (fun m => (m.ComponentName, m.Line))).Nodup) → _ := id
    apply hgoal
    rw [List.map_append, List.nodup_append]
    refine ⟨?_, ih, ?_⟩
    · apply List.Nodup.of_map Prod.fst
      rw [List.map_map]
      exact passLine_names_nodup
    · intro k hk1 hk2
      obtain ⟨m1, hm1, hk1eq⟩ := List.mem_map.mp hk1
      obtain ⟨m2, hm2, hk2eq⟩ := List.mem_map.mp hk2
      obtain ⟨name1, hm1eq, -, -, -⟩ := passLine_mem hm1
      obtain ⟨-, -, -, -, j, hj1, -, hj3⟩ := passLines_mem hm2
      have e3 : m1.Line = m2.Line := congrArg Prod.snd (hk1eq.trans hk2eq.symm)
      have e4 : b + i = m2.Line := by rw [← e3, hm1eq]
      omega

/-- The head character of a denylist member is never an upper-case letter. -/
theorem htmlTags_head_not_upper {x : Char} {xs : Str} (h : x :: xs ∈ htmlTags) :
    isReUpper x = false := by
  have hall : htmlTags.all (fun d =>
      match d with
      | [] => true
      | c :: _ => !(isReUpper c)) = true := by decide
  have h2 := List.all_eq_true.mp hall _ h
  simpa using h2

/-- No match of the template pass carries a denylisted name. -/
theorem template_names_not_html {tc fp : Str} {b : Nat} {m : ComponentMatch}
    (hm : m ∈ parseTemplateComponents tc fp b) : m.ComponentName ∉ htmlTags := by
  intro hmem
  obtain ⟨-, -, hhtml, -, -⟩ := passLines_mem hm
  have hH : ∀ d ∈ htmlTags, isHTMLTag d = true := by decide
  exact absurd (hH _ hmem) (by simp [hhtml rfl])

/-- No match of a JSX pass carries a denylisted name (JSX names start with an
upper-case letter, denylist members do not). -/
theorem jsx_names_not_html {sc fp : Str} {b i : Nat} {seen : List (Str × Nat)}
    {m : ComponentMatch}
    (hm : m ∈ passLines false isReUpper isJsxNameChar fp b (splitLines sc) i seen) :
    m.ComponentName ∉ htmlTags := by
  intro hmem
  obtain ⟨-, -, -, ⟨line, -, hfind⟩, -⟩ := passLines_mem hm
  obtain ⟨c, cs, heq, hup, -⟩ := findTags_mem hfind
  rw [heq] at hmem
  simp [htmlTags_head_not_upper hmem] at hup

/-- Line attribution, tied to the occurrence line: every match of a pass is
reported at base + (i + j) where j is the zero-based index of the line on
which the tag scanner finds the match's name. -/
theorem passLines_mem_attrib {f : Bool} {fo no : Char → Bool} {fp : Str} {b : Nat} :
    ∀ {lines : List Str} {i : Nat} {seen : List (Str × Nat)} {m : ComponentMatch},
      m ∈ passLines f fo no fp b lines i seen →
      ∃ j, ∃ hj : j < lines.length, m.Line = b + (i + j) ∧
        m.ComponentName ∈ findTags fo no (lines.get ⟨j, hj⟩) := by
  intro lines
  induction lines with
  | nil => intro i seen m h; simp [passLines] at h
  | cons line rest ih =>
    intro i seen m h
    rw [passLines] at h
    rcases List.mem_append.mp h with h | h
    · obtain ⟨name, hmeq, hn, -, -⟩ := passLine_mem h
      subst hmeq
      refine ⟨0, Nat.succ_pos _, ?_, hn⟩
      show b + i = b + (i + 0)
      omega
    · obtain ⟨j, hj, hline, hmem⟩ := ih h
      refine ⟨j + 1, by simp only [List.length_cons]; omega, ?_, hmem⟩
      rw [hline]
      omega

/-! ## Region extraction lemmas -/

/-- A true isPrefixOf test yields an append decomposition. -/
theorem isPrefixOf_exists {a : Str} :
    ∀ {s : Str}, a.isPrefixOf s = true → ∃ t, s = a ++ t := by
  induction a with
  | nil => intro s _; exact ⟨s, rfl⟩
  | cons x xs ih =>
    intro s h
    cases s with
    | nil => simp [List.isPrefixOf] at h
    | cons y ys =>
      simp only [List.isPrefixOf, Bool.and_eq_true, beq_iff_eq] at h
      obtain ⟨rfl, h2⟩ := h
      obtain ⟨t, rfl⟩ := ih h2
      exact ⟨t, rfl⟩

/-- A found first index is inside the list. -/
theorem firstIdxOf_lt {p : Char → Bool} :
    ∀ {s : Str} {j : Nat}, firstIdxOf p s = some j → j < s.length := by
  intro s
  induction s with
  | nil => intro j h; simp [firstIdxOf] at h
  | cons c rest ih =>
    intro j h
    rw [firstIdxOf] at h
    split at h
    · injection h with h2
      subst h2
      simp
    · cases hr : firstIdxOf p rest with
      | none => rw [hr] at h; cases h
      | some j2 =>
        rw [hr] at h
        have h2 : some (j2 + 1) = some j := h
        injection h2 with h3
        subst h3
        have := ih hr
        simp only [List.length_cons]
        omega

/-- A successful open-delimiter match returns an offset inside the string. -/
theorem matchOpenAt_le {o s : Str} {off : Nat} (h : matchOpenAt o s = some off) :
    off ≤ s.length := by
  unfold matchOpenAt at h
  by_cases hp : o.isPrefixOf s = true
  · rw [if_pos hp] at h
    cases hj : firstIdxOf (fun c => c == '>') (s.drop o.length) with
    | none => rw [hj] at h; cases h
    | some j =>
      rw [hj] at h
      have h2 : some (o.length + j + 1) = some off := h
      injection h2 with h3
      subst h3
      have hlt := firstIdxOf_lt hj
      rw [List.length_drop] at hlt
      obtain ⟨t, rfl⟩ := isPrefixOf_exists hp
      rw [List.length_append] at hlt ⊢
      omega
  · rw [if_neg hp] at h
    cases h

/-- A successful region search splits the input around the captured region, and
the reported index is the length of the part before the region. -/
theorem extractSectionAux_decomp {o cl : Str} :
    ∀ {s : Str} {pos : Nat} {tc : Str} {i : Nat},
      extractSectionAux o cl s pos = some (tc, i) →
      ∃ pre post, s = pre ++ tc ++ post ∧ i = pos + pre.length := by
  intro s
  induction s with
  | nil => intro pos tc i h; simp [extractSectionAux] at h
  | cons c rest ih =>
    intro pos tc i h
    rw [extractSectionAux] at h
    cases hm : matchOpenAt o (c :: rest) with
    | none =>
      rw [hm] at h
      obtain ⟨pre, post, heq, hi⟩ := ih h
      refine ⟨c :: pre, post, ?_, ?_⟩
      · rw [List.cons_append, List.cons_append, ← heq]
      · rw [hi]
        simp only [List.length_cons]
        omega
    | some off =>
      rw [hm] at h
      have hred : (match findSubstrIdx cl ((c :: rest).drop off) with
          | some k => some (((c :: rest).drop off).take k, pos + off)
          | none => extractSectionAux o cl rest (pos + 1)) = some (tc, i) := h
      cases hf : findSubstrIdx cl ((c :: rest).drop off) with
      | none =>
        rw [hf] at hred
        obtain ⟨pre, post, heq, hi⟩ := ih hred
        refine ⟨c :: pre, post, ?_, ?_⟩
        · rw [List.cons_append, List.cons_append, ← heq]
        · rw [hi]
          simp only [List.length_cons]
          omega
      | some k =>
        rw [hf] at hred
        have h2 : some (((c :: rest).drop off).take k, pos + off) = some (tc, i) := hred
        injection h2 with h3
        have h4 : ((c :: rest).drop off).take k = tc := congrArg Prod.fst h3
        have h5 : pos + off = i := congrArg Prod.snd h3
        refine ⟨(c :: rest).take off, ((c :: rest).drop off).drop k, ?_, ?_⟩
        · rw [← h4, List.append_assoc, List.take_append_drop, List.take_append_drop]
        · have hle := matchOpenAt_le hm
          rw [← h5, List.length_take]
          omega

/-- The template region start line is the count of newlines before the region
start plus one. -/
theorem extractTemplateSection_decomp {content tc : Str} {s : Nat}
    (h : extractTemplateSection content = (tc, s)) (hne : tc ≠ []) :
    ∃ pre post, content = pre ++ tc ++ post ∧ s = countNl pre + 1 := by
  unfold extractTemplateSection at h
  cases haux : extractSectionAux (str "<template") (str "</template>") content 0 with
  | none =>
    rw [haux] at h
    exact absurd (congrArg Prod.fst h).symm hne
  | some r =>
    rw [haux] at h
    obtain ⟨tc2, idx⟩ := r
    have h4 : tc2 = tc := congrArg Prod.fst h
    have h5 : countNl (content.take idx) + 1 = s := congrArg Prod.snd h
    subst h4
    obtain ⟨pre, post, heq, hi⟩ := extractSectionAux_decomp haux
    refine ⟨pre, post, heq, ?_⟩
    rw [← h5, hi]
    have h6 : content.take (0 + pre.length) = pre := by
      rw [heq, Nat.zero_add, List.append_assoc, List.take_left]
    rw [h6]

/-- The script region start line is the count of newlines before the region
start plus one. -/
theorem extractScriptSection_decomp {content sc : Str} {s : Nat}
    (h : extractScriptSection content = (sc, s)) (hne : sc ≠ []) :
    ∃ pre post, content = pre ++ sc ++ post ∧ s = countNl pre + 1 := by
  unfold extractScriptSection at h
  cases haux : extractSectionAux (str "<script") (str "</script>") content 0 with
  | none =>
    rw [haux] at h
    exact absurd (congrArg Prod.fst h).symm hne
  | some r =>
    rw [haux] at h
    obtain ⟨sc2, idx⟩ := r
    have h4 : sc2 = sc := congrArg Prod.fst h
    have h5 : countNl (content.take idx) + 1 = s := congrArg Prod.snd h
    subst h4
    obtain ⟨pre, post, heq, hi⟩ := extractSectionAux_decomp haux
    refine ⟨pre, post, heq, ?_⟩
    rw [← h5, hi]
    have h6 : content.take (0 + pre.length) = pre := by
      rw [heq, Nat.zero_add, List.append_assoc, List.take_left]
    rw [h6]

/-- A nonempty template region has a positive start line. -/
theorem extractTemplateSection_pos {content : Str}
    (h : (extractTemplateSection content).1 ≠ []) :
    1 ≤ (extractTemplateSection content).2 := by
  unfold extractTemplateSection at h ⊢
  cases haux : extractSectionAux (str "<template") (str "</template>") content 0 with
  | none => rw [haux] at h; simp at h
  | some r =>
    obtain ⟨tc, idx⟩ := r
    exact Nat.succ_le_succ (Nat.zero_le _)

/-- A nonempty script region has a positive start line. -/
theorem extractScriptSection_pos {content : Str}
    (h : (extractScriptSection content).1 ≠ []) :
    1 ≤ (extractScriptSection content).2 := by
  unfold extractScriptSection at h ⊢
  cases haux : extractSectionAux (str "<script") (str "</script>") content 0 with
  | none => rw [haux] at h; simp at h
  | some r =>
    obtain ⟨sc, idx⟩ := r
    exact Nat.succ_le_succ (Nat.zero_le _)

/-! ## Character class lemmas (for the denylist case-sensitivity claim) -/

/-- Lowercasing a non-upper character leaves it unchanged. -/
theorem toLower_eq_of_not_upper {c : Char} (h : isReUpper c = false) :
    Char.toLower c = c := by
  have h2 : ¬(c.toNat ≥ 65 ∧ c.toNat ≤ 90) := by
    intro hc
    have h3 : isReUpper c = true := by
      simp only [isReUpper, Bool.and_eq_true, decide_eq_true_eq]
      exact ⟨hc.1, hc.2⟩
    rw [h3] at h
    simp at h
  unfold Char.toLower
  exact if_neg h2

/-- A character whose lowercase form is a lower-case letter is a letter. -/
theorem char_head_letter {c : Char} (h : isReLower (Char.toLower c) = true) :
    isReLetter c = true := by
  cases hu : isReUpper c with
  | true => simp [isReLetter, hu]
  | false =>
    rw [toLower_eq_of_not_upper hu] at h
    simp [isReLetter, h]

/-- A character whose lowercase form is a lower-case letter or digit is a
template tag-name character. -/
theorem char_tag_char {c : Char}
    (h : (isReLower (Char.toLower c) || isReDigit (Char.toLower c)) = true) :
    isTagNameChar c = true := by
  cases hu : isReUpper c with
  | true => simp [isTagNameChar, isReLetter, hu]
  | false =>
    rw [toLower_eq_of_not_upper hu] at h
    rcases Bool.or_eq_true_iff.mp h with h | h
    · simp [isTagNameChar, isReLetter, h]
    · simp [isTagNameChar, h]

/-- A letter is neither a newline nor an open bracket. -/
theorem letter_ne {c : Char} (h : isReLetter c = true) : c ≠ '\n' ∧ c ≠ '<' := by
  constructor <;> intro he <;> subst he <;> revert h <;> decide

/-- A tag-name character is neither a newline nor an open bracket. -/
theorem tagchar_ne {c : Char} (h : isTagNameChar c = true) : c ≠ '\n' ∧ c ≠ '<' := by
  constructor <;> intro he <;> subst he <;> revert h <;> decide

/-! ## Concrete template-pass computation lemmas -/

/-- Splitting a newline-free string yields a single line. -/
theorem splitLinesAux_no_nl :
    ∀ (s acc : Str), (∀ c ∈ s, c ≠ '\n') → splitLinesAux s acc = [acc.reverse ++ s] := by
  intro s
  induction s with
  | nil => intro acc _; simp [splitLinesAux]
  | cons c rest ih =>
    intro acc h
    rw [splitLinesAux, if_neg (h c (List.mem_cons_self _ _)),
      ih (c :: acc) (fun x hx => h x (List.mem_cons_of_mem _ hx))]
    simp

/-- Splitting a newline-free string yields a single line. -/
theorem splitLines_no_nl {s : Str} (h : ∀ c ∈ s, c ≠ '\n') : splitLines s = [s] := by
  rw [splitLines, splitLinesAux_no_nl s [] h]
  simp

/-- takeWhile over a run of accepted characters followed by a rejected one. -/
theorem takeWhile_append_all {p : Char → Bool} :
    ∀ (xs ys : Str), (∀ x ∈ xs, p x = true) →
      (xs ++ ys).takeWhile p = xs ++ ys.takeWhile p := by
  intro xs
  induction xs with
  | nil => intro ys _; simp
  | cons x rest ih =>
    intro ys h
    rw [List.cons_append, List.takeWhile_cons, if_pos (h x (List.mem_cons_self _ _)),
      ih ys (fun y hy => h y (List.mem_cons_of_mem _ hy)), List.cons_append]

/-- dropWhile over a run of accepted characters. -/
theorem dropWhile_append_all {p : Char → Bool} :
    ∀ (xs ys : Str), (∀ x ∈ xs, p x = true) →
      (xs ++ ys).dropWhile p = ys.dropWhile p := by
  intro xs
  induction xs with
  | nil => intro ys _; simp
  | cons x rest ih =>
    intro ys h
    rw [List.cons_append, List.dropWhile_cons, if_pos (h x (List.mem_cons_self _ _)),
      ih ys (fun y hy => h y (List.mem_cons_of_mem _ hy))]

/-- The pattern cannot match at a position that does not hold an open bracket. -/
theorem matchTagAt_none_of_head {fo no : Char → Bool} {c0 : Char} {rest : Str}
    (h : c0 ≠ '<') : matchTagAt fo no (c0 :: rest) = none := by
  cases rest with
  | nil => rfl
  | cons c cs => rw [matchTagAt, if_neg h]

/-- The scanner finds nothing in a bracket-free string. -/
theorem findTags_no_bracket {fo no : Char → Bool} :
    ∀ {s : Str}, (∀ x ∈ s, x ≠ '<') → findTags fo no s = [] := by
  intro s
  induction s with
  | nil => intro _; rfl
  | cons c0 rest ih =>
    intro h
    rw [findTags, matchTagAt_none_of_head (h c0 (List.mem_cons_self _ _))]
    exact ih (fun x hx => h x (List.mem_cons_of_mem _ hx))

/-- The pattern matches a well-formed tag name enclosed in brackets at the
start of the text, capturing exactly the name. -/
theorem matchTagAt_concrete {name : Str} {c : Char} {cs : Str}
    (hname : name = c :: cs) (hc : isReLetter c = true)
    (hcs : ∀ x ∈ cs, isTagNameChar x = true) :
    matchTagAt isReLetter isTagNameChar ('<' :: name ++ [ '>' ]) = some name := by
  subst hname
  show matchTagAt isReLetter isTagNameChar ('<' :: c :: (cs ++ [ '>' ])) = some (c :: cs)
  rw [matchTagAt, if_pos rfl, if_pos hc, dropWhile_append_all cs [ '>' ] hcs]
  have hd : ([ '>' ] : Str).dropWhile isTagNameChar = [ '>' ] := by decide
  rw [hd]
  show (if isBoundaryChar '>' = true then
      some (c :: (cs ++ [ '>' ]).takeWhile isTagNameChar) else none) = some (c :: cs)
  rw [if_pos (by decide), takeWhile_append_all cs [ '>' ] hcs]
  have ht : ([ '>' ] : Str).takeWhile isTagNameChar = [] := by decide
  rw [ht, List.append_nil]

/-- The scanner finds exactly the enclosed name in a single bracketed tag. -/
theorem findTags_concrete {name : Str} {c : Char} {cs : Str}
    (hname : name = c :: cs) (hc : isReLetter c = true)
    (hcs : ∀ x ∈ cs, isTagNameChar x = true) :
    findTags isReLetter isTagNameChar ('<' :: name ++ [ '>' ]) = [name] := by
  have h1 : findTags isReLetter isTagNameChar ('<' :: name ++ [ '>' ]) =
      (match matchTagAt isReLetter isTagNameChar ('<' :: name ++ [ '>' ]) with
       | some nm => nm :: findTags isReLetter isTagNameChar (name ++ [ '>' ])
       | none => findTags isReLetter isTagNameChar (name ++ [ '>' ])) := rfl
  rw [h1, matchTagAt_concrete hname hc hcs]
  show name :: findTags isReLetter isTagNameChar (name ++ [ '>' ]) = [name]
  rw [findTags_no_bracket]
  intro x hx
  rcases List.mem_append.mp hx with hx | hx
  · rw [hname] at hx
    rcases List.mem_cons.mp hx with rfl | hx
    · exact (letter_ne hc).2
    · exact (tagchar_ne (hcs x hx)).2
  · rcases List.mem_cons.mp hx with rfl | hx
    · decide
    · simp at hx

/-- One line holding one non-denylisted candidate yields exactly one match. -/
theorem passLine_single {fp : Str} {b : Nat} {name : Str}
    (hh : isHTMLTag name = false) :
    passLine true fp b 0 [name] [] = ([⟨fp, b + 0, name, []⟩], [(name, 0)]) := by
  simp [passLine, hh]

/-- The template pass on a single bracketed, non-denylisted, newline-free tag
yields exactly one match at the base line. -/
theorem parseTemplate_single {name fp : Str} {base : Nat}
    (hnl : ∀ x ∈ ('<' :: name ++ [ '>' ] : Str), x ≠ '\n')
    (hfind : findTags isReLetter isTagNameChar ('<' :: name ++ [ '>' ]) = [name])
    (hh : isHTMLTag name = false) :
    parseTemplateComponents ('<' :: name ++ [ '>' ]) fp base =
      [⟨fp, base, name, []⟩] := by
  unfold parseTemplateComponents
  rw [splitLines_no_nl hnl, passLines, hfind, passLine_single hh]
  simp [passLines]

/-! ## Registry lemmas -/

/-- A requested type whose lowercase form is a known key has a mapping. -/
theorem getMapping_known (rt : Str)
    (h : lowerStr rt ∈ [str "form", str "button", str "dialog"]) :
    ∃ m, GetMapping rt = some m := by
  simp only [List.mem_cons, List.not_mem_nil, or_false] at h
  rcases h with h | h | h <;>
    exact ⟨_, by rw [GetMapping, h]; rfl⟩

/-- A requested type whose lowercase form is not a known key has no mapping. -/
theorem getMapping_unknown (rt : Str)
    (h : lowerStr rt ∉ [str "form", str "button", str "dialog"]) :
    GetMapping rt = none := by
  simp only [List.mem_cons, List.not_mem_nil, or_false, not_or] at h
  obtain ⟨h1, h2, h3⟩ := h
  simp only [GetMapping, registryMappings, List.lookup,
    beq_eq_false_iff_ne.mpr h1, beq_eq_false_iff_ne.mpr h2, beq_eq_false_iff_ne.mpr h3]

/-- Claim C2: for a requested type whose lowercase form is a known type, classify
returns true iff the element name case-insensitively equals one of the literal
names registered under that type's library groups (exact-match semantics); in
particular classify of the quasar form name in upper case is true and a
partial/extended name is false. -/
theorem claim_C2 (name rt : Str)
    (hknown : lowerStr rt ∈ [str "form", str "button", str "dialog"]) :
    (∃ m, GetMapping rt = some m ∧
      (MatchesComponentType name rt = true ↔
        ∃ lib pats, (lib, pats) ∈ m.patterns ∧ ∃ p ∈ pats, lowerStr name = lowerStr p)) ∧
    MatchesComponentType (str "Q-FORM") (str "form") = true ∧
    MatchesComponentType (str "q-form-extended") (str "form") = false := by
  refine ⟨?_, by decide, by decide⟩
  obtain ⟨m, hm⟩ := getMapping_known rt hknown
  refine ⟨m, hm, ?_⟩
  simp only [MatchesComponentType, hm, List.any_eq_true, eqFold, beq_iff_eq]
  constructor
  · rintro ⟨⟨lib, pats⟩, hmem, p, hp, he⟩
    exact ⟨lib, pats, hmem, p, hp, he⟩
  · rintro ⟨lib, pats, hmem, p, hp, he⟩
    exact ⟨⟨lib, pats⟩, hmem, p, hp, he⟩

/-- Witness for C2 at a concrete known type. -/
theorem claim_C2_witness :
    lowerStr (str "FORM") ∈ [str "form", str "button", str "dialog"] ∧
    ((∃ m, GetMapping (str "FORM") = some m ∧
      (MatchesComponentType (str "QForm") (str "FORM") = true ↔
        ∃ lib pats, (lib, pats) ∈ m.patterns ∧
          ∃ p ∈ pats, lowerStr (str "QForm") = lowerStr p)) ∧
     MatchesComponentType (str "Q-FORM") (str "form") = true ∧
     MatchesComponentType (str "q-form-extended") (str "form") = false) :=
  ⟨by decide, claim_C2 (str "QForm") (str "FORM") (by decide)⟩

/-- Claim C3: for a requested type whose lowercase form is not a known type,
classify returns true iff the element name case-insensitively equals the
requested type string itself; the Widget examples hold. -/
theorem claim_C3 (name rt : Str)
    (hunknown : lowerStr rt ∉ [str "form", str "button", str "dialog"]) :
    (MatchesComponentType name rt = true ↔ lowerStr name = lowerStr rt) ∧
    MatchesComponentType (str "Widget") (str "Widget") = true ∧
    MatchesComponentType (str "widget") (str "Widget") = true ∧
    MatchesComponentType (str "OtherWidget") (str "Widget") = false := by
  refine ⟨?_, by decide, by decide, by decide⟩
  simp only [MatchesComponentType, getMapping_unknown rt hunknown, eqFold, beq_iff_eq]

/-- Witness for C3 at a concrete custom type. -/
theorem claim_C3_witness :
    lowerStr (str "Widget") ∉ [str "form", str "button", str "dialog"] ∧
    ((MatchesComponentType (str "Gadget") (str "Widget") = true ↔
       lowerStr (str "Gadget") = lowerStr (str "Widget")) ∧
     MatchesComponentType (str "Widget") (str "Widget") = true ∧
     MatchesComponentType (str "widget") (str "Widget") = true ∧
     MatchesComponentType (str "OtherWidget") (str "Widget") = false) :=
  ⟨by decide, claim_C3 (str "Gadget") (str "Widget") (by decide)⟩

/-! ## Filter lemmas and the scanner claims -/

/-- The filtering loop is exactly a filter through the registry followed by
stamping the component type. -/
theorem filterByComponentType_eq (ms : List ComponentMatch) (ct : Str) :
    filterByComponentType ms ct =
      (ms.filter fun m => MatchesComponentType m.ComponentName ct).map
        fun m => { m with ComponentType := ct } := by
  induction ms with
  | nil => rfl
  | cons m rest ih =>
    simp only [filterByComponentType, List.filter_cons]
    by_cases h : MatchesComponentType m.ComponentName ct = true
    · simp [h, ih]
    · simp [h, ih]

/-- Claim C10: filterByComponentType only rewrites the ComponentType field: its
output is the order-preserving subsequence of registry-accepted input matches,
each with only the ComponentType field changed to the requested type. -/
theorem claim_C10 (ms : List ComponentMatch) (ct : Str) :
    filterByComponentType ms ct =
      ((ms.filter fun m => MatchesComponentType m.ComponentName ct).map
        fun m => { m with ComponentType := ct }) ∧
    (filterByComponentType ms ct).Sublist
      (ms.map fun m => { m with ComponentType := ct }) ∧
    (∀ m ∈ ms, MatchesComponentType m.ComponentName ct = true →
      ({ m with ComponentType := ct } : ComponentMatch) ∈ filterByComponentType ms ct) ∧
    (∀ m2 ∈ filterByComponentType ms ct, m2.ComponentType = ct ∧
      ∃ m ∈ ms, MatchesComponentType m.ComponentName ct = true ∧
        m2.FilePath = m.FilePath ∧ m2.Line = m.Line ∧
        m2.ComponentName = m.ComponentName) := by
  have heq := filterByComponentType_eq ms ct
  refine ⟨heq, ?_, ?_, ?_⟩
  · rw [heq]
    exact List.Sublist.map _ (List.filter_sublist ms)
  · intro m hm hmatch
    rw [heq]
    exact List.mem_map_of_mem _ (List.mem_filter.mpr ⟨hm, hmatch⟩)
  · intro m2 hm2
    rw [heq] at hm2
    obtain ⟨m, hmf, hm2eq⟩ := List.mem_map.mp hm2
    obtain ⟨hm, hmatch⟩ := List.mem_filter.mp hmf
    subst hm2eq
    exact ⟨rfl, m, hm, hmatch, rfl, rfl, rfl⟩

/-- Witness for C10 at a concrete match list. -/
theorem claim_C10_witness :
    (⟨str "a.vue", 1, str "q-form", str "form"⟩ : ComponentMatch) ∈
      filterByComponentType [⟨str "a.vue", 1, str "q-form", []⟩] (str "form") :=
  (claim_C10 [⟨str "a.vue", 1, str "q-form", []⟩] (str "form")).2.2.1
    ⟨str "a.vue", 1, str "q-form", []⟩ (by decide) (by decide)

/-- Claim C8: scanning an empty file list yields no error and a result with no
matches, zero total count, zero scanned files, and the requested type. -/
theorem claim_C8 (fs : Str → Option Str) (ct : Str) (t : Nat) :
    Scan fs appParsers [] ct t =
      ({ Matches := [], TotalCount := 0, ScanTimeMs := t, ComponentType := ct,
         ScannedFiles := 0 }, none) := rfl

/-- Claim C1: Scan returns scanned-file count equal to the input batch size,
total count equal to the length of the match sequence, the requested type as
supplied, and a match multiset equal to the union over the input files of the
parser's raw matches filtered through the registry and stamped with the
requested type; files with no parser or a failed read contribute nothing. -/
theorem claim_C1 (fs : Str → Option Str) (files : List Str) (ct : Str) (t : Nat) :
    (Scan fs appParsers files ct t).1.ScannedFiles = files.length ∧
    (Scan fs appParsers files ct t).1.TotalCount =
      (Scan fs appParsers files ct t).1.Matches.length ∧
    (Scan fs appParsers files ct t).1.ComponentType = ct ∧
    (Scan fs appParsers files ct t).1.Matches.Perm
      ((files.map fun path =>
        match appParsers.find? (fun pr => pr.SupportsFile path) with
        | none => []
        | some pr =>
          match fs path with
          | none => []
          | some content =>
            match pr.ParseFile content path with
            | (_, some _) => []
            | (raw, none) =>
              (raw.filter fun m => MatchesComponentType m.ComponentName ct).map
                fun m => { m with ComponentType := ct }).flatten) := by
  refine ⟨rfl, rfl, rfl, ?_⟩
  have heq : (Scan fs appParsers files ct t).1.Matches =
      ((files.map fun path =>
        match appParsers.find? (fun pr => pr.SupportsFile path) with
        | none => []
        | some pr =>
          match fs path with
          | none => []
          | some content =>
            match pr.ParseFile content path with
            | (_, some _) => []
            | (raw, none) =>
              (raw.filter fun m => MatchesComponentType m.ComponentName ct).map
                fun m => { m with ComponentType := ct }).flatten) := by
    show ((files.map (scanFile fs appParsers ct)).flatten) = _
    congr 1
    apply List.map_congr_left
    intro path _
    unfold scanFile
    split
    · rfl
    · split
      · rfl
      · split
        · rfl
        · exact filterByComponentType_eq _ ct
  rw [heq]

/-- Claim C7: Scan never surfaces a per-file failure as an error: the error is
always nil, an unreadable or unsupported file contributes zero matches, and the
two-file example (one valid, one missing) returns only the valid file's matches
with scanned-file count 2 and no error. -/
theorem claim_C7 (fs : Str → Option Str) (files : List Str) (ct : Str) (t : Nat) :
    (Scan fs appParsers files ct t).2 = none ∧
    (∀ path, fs path = none → scanFile fs appParsers ct path = []) ∧
    (∀ path, appParsers.find? (fun pr => pr.SupportsFile path) = none →
      scanFile fs appParsers ct path = []) ∧
    Scan exampleFs appParsers [str "valid.vue", str "missing.vue"] (str "form") t =
      (⟨[⟨str "valid.vue", 1, str "q-form", str "form"⟩], 1, t, str "form", 2⟩,
       none) := by
  refine ⟨rfl, ?_, ?_, ?_⟩
  · intro path h
    unfold scanFile
    cases hf : appParsers.find? (fun pr => pr.SupportsFile path) with
    | none => rfl
    | some pr => rw [h]
  · intro path h
    unfold scanFile
    rw [h]
  · rfl

/-- Witness for C7: concrete unreadable and unsupported paths contribute nothing. -/
theorem claim_C7_witness :
    scanFile exampleFs appParsers (str "form") (str "nope.vue") = [] ∧
    scanFile exampleFs appParsers (str "form") (str "nope.txt") = [] :=
  ⟨(claim_C7 exampleFs [] (str "form") 0).2.1 _ (by decide),
   (claim_C7 exampleFs [] (str "form") 0).2.2.1 _ (by decide)⟩

/-- Claim C5: within each parsing pass a candidate name contributes at most one
match per physical line: the (name, line) keys of a pass's output are pairwise
distinct; a name twice on one line yields one match, the same name on two lines
yields two matches, and different names on one line are all kept. -/
theorem claim_C5 :
    (∀ tc fp b, ((parseTemplateComponents tc fp b).map
      (fun m => (m.ComponentName, m.Line))).Nodup) ∧
    (∀ sc fp b, ((parseJSXComponents sc fp b).map
      (fun m => (m.ComponentName, m.Line))).Nodup) ∧
    (∀ c fp b, ((parseReactJSXComponents c fp b).map
      (fun m => (m.ComponentName, m.Line))).Nodup) ∧
    (parseReactJSXComponents (str "<Button /><Button />") (str "a.tsx") 1).map
      (fun m => (m.ComponentName, m.Line)) = [(str "Button", 1)] ∧
    (parseReactJSXComponents (str "<Button />\n<Button />") (str "a.tsx") 1).map
      (fun m => (m.ComponentName, m.Line)) = [(str "Button", 1), (str "Button", 2)] ∧
    (parseReactJSXComponents (str "<Button /><Card />") (str "a.tsx") 1).map
      (fun m => (m.ComponentName, m.Line)) = [(str "Button", 1), (str "Card", 1)] := by
  refine ⟨?_, ?_, ?_, by decide, by decide, by decide⟩ <;>
  · intro a fp b
    exact passLines_keys_nodup

/-- Claim C9: no match produced by either parser ever carries a name that is an
exact member of the lowercase HTML denylist, even though the registry's native
library group registers exactly the literal names form, button, and dialog for
the known types. -/
theorem claim_C9 :
    (∀ content fp, ∀ m ∈ (VueParser.Parse content fp).1,
      m.ComponentName ∉ htmlTags) ∧
    (∀ content fp, ∀ m ∈ (ReactParser.Parse content fp).1,
      m.ComponentName ∉ htmlTags) ∧
    (GetMapping (str "form")).map
      (fun mp => mp.patterns.contains (str "native", [str "form"])) = some true ∧
    (GetMapping (str "button")).map
      (fun mp => mp.patterns.contains (str "native", [str "button"])) = some true ∧
    (GetMapping (str "dialog")).map
      (fun mp => mp.patterns.contains (str "native", [str "dialog"])) = some true := by
  refine ⟨?_, ?_, by decide, by decide, by decide⟩
  · intro content fp m hm
    have hm2 : m ∈ (if (extractTemplateSection content).1 ≠ [] then
        parseTemplateComponents (extractTemplateSection content).1 fp
          (extractTemplateSection content).2 else []) ++
        (if (extractScriptSection content).1 ≠ [] then
          parseJSXComponents (extractScriptSection content).1 fp
            (extractScriptSection content).2 else []) := hm
    rcases List.mem_append.mp hm2 with h | h
    · split at h
      · exact template_names_not_html h
      · simp at h
    · split at h
      · exact jsx_names_not_html h
      · simp at h
  · intro content fp m hm
    exact jsx_names_not_html hm

/-- Witness for C9 at concrete parses of both parsers. -/
theorem claim_C9_witness :
    (str "Button" : Str) ∉ htmlTags ∧ (str "QForm" : Str) ∉ htmlTags :=
  ⟨claim_C9.2.1 (str "<Button />") (str "a.tsx")
     ⟨str "a.tsx", 1, str "Button", []⟩ (by decide),
   claim_C9.1 (str "<template><QForm /></template>") (str "a.vue")
     ⟨str "a.vue", 1, str "QForm", []⟩ (by decide)⟩

/-- Claim C6: each Vue region's line-number base is the count of newlines before
the region start plus one, every Vue match is reported at a region base plus a
zero-based line offset inside that region, the React parser attributes matches
starting at line 1 (concretely, a file whose first line uses Button yields that
match at line 1), and every reported line number of either parser is a positive
1-based number. -/
theorem claim_C6 :
    (∀ content tc s, extractTemplateSection content = (tc, s) → tc ≠ [] →
      ∃ pre post, content = pre ++ tc ++ post ∧ s = countNl pre + 1) ∧
    (∀ content sc s, extractScriptSection content = (sc, s) → sc ≠ [] →
      ∃ pre post, content = pre ++ sc ++ post ∧ s = countNl pre + 1) ∧
    (∀ content fp, ∀ m ∈ (VueParser.Parse content fp).1,
      (∃ j, ∃ hj : j < (splitLines (extractTemplateSection content).1).length,
        m.Line = (extractTemplateSection content).2 + j ∧
        m.ComponentName ∈ findTags isReLetter isTagNameChar
          ((splitLines (extractTemplateSection content).1).get ⟨j, hj⟩)) ∨
      (∃ j, ∃ hj : j < (splitLines (extractScriptSection content).1).length,
        m.Line = (extractScriptSection content).2 + j ∧
        m.ComponentName ∈ findTags isReUpper isJsxNameChar
          ((splitLines (extractScriptSection content).1).get ⟨j, hj⟩))) ∧
    ReactParser.Parse (str "<Button>Click me</Button>") (str "App.tsx") =
      ([⟨str "App.tsx", 1, str "Button", []⟩], none) ∧
    (∀ content fp, ∀ m ∈ (VueParser.Parse content fp).1, 1 ≤ m.Line) ∧
    (∀ content fp, ∀ m ∈ (ReactParser.Parse content fp).1, 1 ≤ m.Line) := by
  refine ⟨fun content tc s h hne => extractTemplateSection_decomp h hne,
    fun content sc s h hne => extractScriptSection_decomp h hne, ?_, by decide,
    ?_, ?_⟩
  · intro content fp m hm
    have hm2 : m ∈ (if (extractTemplateSection content).1 ≠ [] then
        parseTemplateComponents (extractTemplateSection content).1 fp
          (extractTemplateSection content).2 else []) ++
        (if (extractScriptSection content).1 ≠ [] then
          parseJSXComponents (extractScriptSection content).1 fp
            (extractScriptSection content).2 else []) := hm
    rcases List.mem_append.mp hm2 with h | h
    · split at h
      · left
        obtain ⟨j, hj, hline, hfound⟩ := passLines_mem_attrib h
        rw [Nat.zero_add] at hline
        exact ⟨j, hj, hline, hfound⟩
      · simp at h
    · split at h
      · right
        obtain ⟨j, hj, hline, hfound⟩ := passLines_mem_attrib h
        rw [Nat.zero_add] at hline
        exact ⟨j, hj, hline, hfound⟩
      · simp at h
  · intro content fp m hm
    have hm2 : m ∈ (if (extractTemplateSection content).1 ≠ [] then
        parseTemplateComponents (extractTemplateSection content).1 fp
          (extractTemplateSection content).2 else []) ++
        (if (extractScriptSection content).1 ≠ [] then
          parseJSXComponents (extractScriptSection content).1 fp
            (extractScriptSection content).2 else []) := hm
    rcases List.mem_append.mp hm2 with h | h
    · split at h
      · next hne =>
          obtain ⟨-, -, -, -, j, -, -, hj3⟩ := passLines_mem h
          have := extractTemplateSection_pos hne
          omega
      · simp at h
    · split at h
      · next hne =>
          obtain ⟨-, -, -, -, j, -, -, hj3⟩ := passLines_mem h
          have := extractScriptSection_pos hne
          omega
      · simp at h
  · intro content fp m hm
    obtain ⟨-, -, -, -, j, -, -, hj3⟩ := passLines_mem hm
    omega

/-- Witness for C6 at concrete Vue files: the region decomposition, the
occurrence-line attribution of a match on the second region line, and
positivity, each at a concrete match. -/
theorem claim_C6_witness :
    (∃ pre post, str "x\n<template><q-form/></template>" =
        pre ++ str "<q-form/>" ++ post ∧ 2 = countNl pre + 1) ∧
    ((∃ j, ∃ hj : j < (splitLines (extractTemplateSection
          (str "<template>\n<q-form/></template>")).1).length,
        (⟨str "a.vue", 2, str "q-form", []⟩ : ComponentMatch).Line =
          (extractTemplateSection (str "<template>\n<q-form/></template>")).2 + j ∧
        (⟨str "a.vue", 2, str "q-form", []⟩ : ComponentMatch).ComponentName ∈
          findTags isReLetter isTagNameChar
            ((splitLines (extractTemplateSection
              (str "<template>\n<q-form/></template>")).1).get ⟨j, hj⟩)) ∨
     (∃ j, ∃ hj : j < (splitLines (extractScriptSection
          (str "<template>\n<q-form/></template>")).1).length,
        (⟨str "a.vue", 2, str "q-form", []⟩ : ComponentMatch).Line =
          (extractScriptSection (str "<template>\n<q-form/></template>")).2 + j ∧
        (⟨str "a.vue", 2, str "q-form", []⟩ : ComponentMatch).ComponentName ∈
          findTags isReUpper isJsxNameChar
            ((splitLines (extractScriptSection
              (str "<template>\n<q-form/></template>")).1).get ⟨j, hj⟩))) ∧
    1 ≤ (⟨str "a.vue", 1, str "q-form", []⟩ : ComponentMatch).Line :=
  ⟨claim_C6.1 (str "x\n<template><q-form/></template>") (str "<q-form/>") 2
     (by decide) (by decide),
   claim_C6.2.2.1 (str "<template>\n<q-form/></template>") (str "a.vue")
     ⟨str "a.vue", 2, str "q-form", []⟩ (by decide),
   claim_C6.2.2.2.2.1 (str "<template><q-form/></template>") (str "a.vue")
     ⟨str "a.vue", 1, str "q-form", []⟩ (by decide)⟩

/-- Claim C4: the template pass excludes a candidate iff it is an exact
lowercase member of the fixed HTML denylist: no denylist name is ever reported
regardless of surrounding text, while any tag name whose lowercase form is in
the denylist but which contains an upper-case letter IS reported. -/
theorem claim_C4 :
    (∀ d ∈ htmlTags, ∀ tc fp base, ∀ m ∈ parseTemplateComponents tc fp base,
      m.ComponentName ≠ d) ∧
    (∀ name : Str, lowerStr name ∈ htmlTags → name ≠ lowerStr name →
      ∀ fp base, parseTemplateComponents ('<' :: name ++ [ '>' ]) fp base =
        [⟨fp, base, name, []⟩]) := by
  constructor
  · intro d hd tc fp base m hm he
    exact template_names_not_html hm (he.symm ▸ hd)
  · intro name hmem hne fp base
    have hh : isHTMLTag name = false := by
      have hb : (lowerStr name == name) = false :=
        beq_eq_false_iff_ne.mpr (Ne.symm hne)
      simp [isHTMLTag, hb]
    rcases name with _ | ⟨c, cs⟩
    · exact absurd hmem (by decide)
    · have hall : htmlTags.all (fun d =>
          match d with
          | [] => false
          | x :: xs => isReLower x &&
              (x :: xs).all fun y => isReLower y || isReDigit y) = true := by decide
      have h2 := List.all_eq_true.mp hall _ hmem
      have h3 : (isReLower (Char.toLower c) &&
          ((Char.toLower c :: lowerStr cs).all
            fun y => isReLower y || isReDigit y)) = true := h2
      rw [Bool.and_eq_true] at h3
      obtain ⟨hhead, htail⟩ := h3
      have hc : isReLetter c = true := char_head_letter hhead
      have hcs : ∀ x ∈ cs, isTagNameChar x = true := by
        intro x hx
        exact char_tag_char (List.all_eq_true.mp htail (Char.toLower x)
          (List.mem_cons_of_mem _ (List.mem_map_of_mem _ hx)))
      have hnl : ∀ x ∈ ('<' :: (c :: cs) ++ [ '>' ] : Str), x ≠ '\n' := by
        intro x hx
        rcases List.mem_cons.mp hx with rfl | hx
        · decide
        · rcases List.mem_append.mp hx with hx | hx
          · rcases List.mem_cons.mp hx with rfl | hx
            · exact (letter_ne hc).1
            · exact (tagchar_ne (hcs x hx)).1
          · rcases List.mem_cons.mp hx with rfl | hx
            · decide
            · simp at hx
      exact parseTemplate_single hnl (findTags_concrete rfl hc hcs) hh

/-- Witness for C4: the lowercase name div is excluded at a concrete parse,
while its capitalised variant Div is reported. -/
theorem claim_C4_witness :
    (str "div" ∈ htmlTags) ∧
    ((⟨str "a.vue", 1, str "q-form", []⟩ : ComponentMatch).ComponentName ≠
      str "div") ∧
    lowerStr (str "Div") ∈ htmlTags ∧
    parseTemplateComponents ('<' :: str "Div" ++ [ '>' ]) (str "a.vue") 1 =
      [⟨str "a.vue", 1, str "Div", []⟩] :=
  ⟨by decide,
   claim_C4.1 (str "div") (by decide) (str "<q-form>") (str "a.vue") 1
     ⟨str "a.vue", 1, str "q-form", []⟩ (by decide),
   by decide,
   claim_C4.2 (str "Div") (by decide) (by decide) (str "a.vue") 1⟩

end UiElf
